import Mathlib

/-!
Shallow embedding of the crafting planner in `src/craft_planner.py`.

States are the `State` class (an `OrderedDict` from item names to integer
quantities), modelled as association lists in insertion order.  Python
dictionary indexing that can raise `KeyError` is modelled with `Option`.
Priorities and path costs are Python floats that are either integers or
`float('inf')`, modelled by the inductive type `Est`.  The wall-clock
time bound of the search loop is modelled by a fuel parameter counting
the iterations the deadline still allows.
-/

namespace CraftPlanner

/-- Items are identified by their names. -/
abbrev Item := String

/-- A state of the planner: the `State` class, an `OrderedDict` from item
names to integer quantities, kept as a list of pairs in insertion order. -/
abbrev State := List (Item × Int)

/-- Association-list lookup, modelling Python dictionary indexing
`d[k]` (first binding wins; `none` models a `KeyError`). -/
def alookup {κ α : Type} [DecidableEq κ] : List (κ × α) → κ → Option α
  | [], _ => none
  | (k, v) :: rest, x => if x = k then some v else alookup rest x

/-- Association-list update, modelling Python dictionary assignment
`d[k] = v`: an existing binding keeps its position, a new key is
appended at the end, as in an `OrderedDict`. -/
def aset {κ α : Type} [DecidableEq κ] : List (κ × α) → κ → α → List (κ × α)
  | [], k, v => [(k, v)]
  | (k', v') :: rest, k, v =>
      if k = k' then (k, v) :: rest else (k', v') :: aset rest k v

/-- Numeric value of a priority or a path cost: the Python floats the
planner actually produces are integers or `float('inf')`. -/
inductive Est : Type where
  | fin : Int → Est
  | inf : Est
deriving DecidableEq

/-- Addition on priorities: anything plus infinity is infinity. -/
def Est.add : Est → Est → Est
  | .fin a, .fin b => .fin (a + b)
  | _, _ => .inf

/-- Strict comparison matching Python float comparison: `inf < inf` is
false and `inf` is larger than every finite value. -/
def Est.lt : Est → Est → Bool
  | .fin a, .fin b => decide (a < b)
  | .fin _, .inf => true
  | .inf, _ => false

/-- Equality of two states as Python evaluates `state1 == state2` on two
`OrderedDict`s: key by key and value by value, insertion order included. -/
def stateEq : State → State → Bool
  | [], [] => true
  | (x, v) :: ps, (y, w) :: qs => decide (x = y) && decide (v = w) && stateEq ps qs
  | _, _ => false

/-- The `State.__key` method: the tuple of items used for hashing and
ordering. -/
def stateKey (s : State) : List (Item × Int) := s

/-- Python comparison of two `(name, quantity)` pairs (tuples compare
lexicographically, strings by code point). -/
def pairLtB (p q : Item × Int) : Bool :=
  if p.1 = q.1 then decide (p.2 < q.2) else decide (p.1 < q.1)

/-- The `State.__lt__` method: Python comparison of the two key tuples,
lexicographic with a strict prefix ranking first. -/
def keyLt : State → State → Bool
  | [], [] => false
  | [], _ :: _ => true
  | _ :: _, [] => false
  | p :: ps, q :: qs => if p = q then keyLt ps qs else pairLtB p q

/-- A crafting rule record: the optional `Requires` keys (their boolean
values are never read by the code), the optional `Consumes` map, and the
`Produces` map. -/
structure Rule : Type where
  requiresKeys : Option (List Item)
  consumes : Option (List (Item × Int))
  produces : List (Item × Int)
deriving DecidableEq

/-- The `Requires` loop of the compiled checker: `state[item] < 1`
raises `KeyError` (modelled by `none`) when the item is absent. -/
def checkRequires (s : State) : List Item → Option Bool
  | [] => some true
  | x :: xs =>
    match alookup s x with
    | none => none
    | some v => if v < 1 then some false else checkRequires s xs

/-- The `Consumes` loop of the compiled checker: membership is tested
before indexing, so this loop cannot raise. -/
def checkConsumes (s : State) : List (Item × Int) → Bool
  | [] => true
  | (x, a) :: xs =>
    match alookup s x with
    | none => false
    | some v => if v < a then false else checkConsumes s xs

/-- The compiled precondition test produced by `make_checker`. -/
def check (r : Rule) (s : State) : Option Bool :=
  match r.requiresKeys with
  | none =>
    match r.consumes with
    | none => some true
    | some cons => some (checkConsumes s cons)
  | some reqs =>
    match checkRequires s reqs with
    | none => none
    | some false => some false
    | some true =>
      match r.consumes with
      | none => some true
      | some cons => some (checkConsumes s cons)

/-- The `Produces` loop of the compiled effector: membership is tested in
the original state, and `next_state[item] += amount` is only reached for
items present there. -/
def applyProduces (orig : State) : List (Item × Int) → State → Option State
  | [], ns => some ns
  | (x, a) :: rest, ns =>
    if (alookup orig x).isSome then
      match alookup ns x with
      | none => none
      | some v => applyProduces orig rest (aset ns x (v + a))
    else
      applyProduces orig rest (aset ns x a)

/-- The `Consumes` loop of the compiled effector: `next_state[item] -
amount` raises `KeyError` (modelled by `none`) when the item is absent. -/
def applyConsumes : List (Item × Int) → State → Option State
  | [], ns => some ns
  | (x, a) :: rest, ns =>
    match alookup ns x with
    | none => none
    | some v => applyConsumes rest (aset ns x (v - a))

/-- The compiled transition function produced by `make_effector`: copy
the state, add every produced amount, subtract every consumed amount. -/
def effect (r : Rule) (s : State) : Option State :=
  match applyProduces s r.produces s with
  | none => none
  | some ns =>
    match r.consumes with
    | none => some ns
    | some cons => applyConsumes cons ns

/-- The compiled goal test produced by `make_goal_checker`. -/
def is_goal (goal : List (Item × Int)) (s : State) : Bool :=
  goal.all fun g =>
    match alookup s g.1 with
    | none => false
    | some v => decide (g.2 ≤ v)

/-- The fixed tool list of the heuristic, in source order. -/
def tools : List Item :=
  ["bench", "furnace", "iron_axe", "iron_pickaxe", "stone_axe",
   "stone_pickaxe", "wooden_axe", "wooden_pickaxe"]

/-- Contiguous substring test on character lists. -/
def substrChars (n : List Char) : List Char → Bool
  | [] => n.isEmpty
  | c :: t => n.isPrefixOf (c :: t) || substrChars n t

/-- Python substring containment `needle in hay` on strings. -/
def substr (needle hay : String) : Bool :=
  substrChars needle.data hay.data

/-- Outcome of the tool loop of `heuristic`: an early `return`, a fall
through to the tier checks, or a `KeyError` on a missing tool key. -/
inductive ScanRes : Type where
  | err : ScanRes
  | ret : Est → ScanRes
  | fall : ScanRes
deriving DecidableEq

/-- The first loop of `heuristic` over the tool list: the first tool held
in quantity greater than one returns infinity, otherwise the first tool
whose name occurs in the action name returns zero. -/
def toolScan (action : String) (s : State) : List Item → ScanRes
  | [] => .fall
  | t :: ts =>
    match alookup s t with
    | none => .err
    | some v =>
      if v > 1 then .ret .inf
      else if substr t action then .ret (.fin 0)
      else toolScan action s ts

/-- The axe half of the tier checks at the end of `heuristic`. -/
def axeChecks (action : String) (s : State) : Option Est :=
  match alookup s "iron_axe" with
  | none => none
  | some ia =>
    if ia > 0 then
      if substr "stone_axe" action || substr "wooden_axe" action then some .inf
      else some (.fin 0)
    else
      match alookup s "stone_axe" with
      | none => none
      | some sa =>
        if sa > 0 then
          if substr "wooden_axe" action then some .inf
          else some (.fin 0)
        else some (.fin 0)

/-- The pickaxe tier checks at the end of `heuristic`, falling through to
the axe checks and the final `return 0`. -/
def tierChecks (action : String) (s : State) : Option Est :=
  match alookup s "iron_pickaxe" with
  | none => none
  | some ip =>
    if ip > 0 then
      if substr "stone_pickaxe" action || substr "wooden_pickaxe" action then some .inf
      else axeChecks action s
    else
      match alookup s "stone_pickaxe" with
      | none => none
      | some sp =>
        if sp > 0 then
          if substr "wooden_pickaxe" action then some .inf
          else axeChecks action s
        else axeChecks action s

/-- The `heuristic` function: the tool loop, then the tier checks. -/
def heuristic (action : String) (s : State) : Option Est :=
  match toolScan action s tools with
  | .err => none
  | .ret e => some e
  | .fall => tierChecks action s

/-- A compiled recipe as built in the main block: a name, the rule its
checker and effector close over, and the `Time` cost. -/
structure Recipe : Type where
  name : String
  rule : Rule
  cost : Int
deriving DecidableEq

/-- The transition generator `graph`, forced to a list; `none` models a
`KeyError` raised while generating. -/
def graph (recipes : List Recipe) (s : State) :
    Option (List (String × State × Int)) :=
  match recipes with
  | [] => some []
  | r :: rest =>
    match check r.rule s with
    | none => none
    | some false => graph rest s
    | some true =>
      match effect r.rule s with
      | none => none
      | some ns =>
        match graph rest s with
        | none => none
        | some l => some ((r.name, ns, r.cost) :: l)

/-- The search bookkeeping: the priority queue and the `pred`,
`pred_actions` and `path_cost` dictionaries. -/
structure Tables : Type where
  queue : List (Est × State)
  pred : List (State × Option State)
  pred_actions : List (State × Option String)
  path_cost : List (State × Est)
deriving DecidableEq

/-- The body of the inner `for` loop of `search` for one generated
transition: compute the candidate path cost, the heuristic estimate and
the priority, and update the three tables and push exactly when the
resulting state is new or strictly improved. -/
def relax (curr_state : State) (curr_cost : Est)
    (t : String × State × Int) (T : Tables) : Option Tables :=
  let pathcost := Est.add curr_cost (.fin t.2.2)
  match heuristic t.1 t.2.1 with
  | none => none
  | some estimate =>
    let total_est := Est.add pathcost estimate
    match alookup T.pred t.2.1 with
    | none =>
      some ⟨(total_est, t.2.1) :: T.queue,
            aset T.pred t.2.1 (some curr_state),
            aset T.pred_actions t.2.1 (some t.1),
            aset T.path_cost t.2.1 pathcost⟩
    | some _ =>
      match alookup T.path_cost t.2.1 with
      | none => none
      | some old =>
        if Est.lt pathcost old then
          some ⟨(total_est, t.2.1) :: T.queue,
                aset T.pred t.2.1 (some curr_state),
                aset T.pred_actions t.2.1 (some t.1),
                aset T.path_cost t.2.1 pathcost⟩
        else some T

/-- The inner `for` loop of `search` over all generated transitions. -/
def processTrans (curr_state : State) (curr_cost : Est) :
    List (String × State × Int) → Tables → Option Tables
  | [], T => some T
  | t :: ts, T =>
    match relax curr_state curr_cost t T with
    | none => none
    | some T' => processTrans curr_state curr_cost ts T'

/-- Strict comparison of two queue entries: Python tuple comparison of
`(priority, state)` pairs. -/
def entryLt (a b : Est × State) : Bool :=
  Est.lt a.1 b.1 || (decide (a.1 = b.1) && keyLt a.2 b.2)

/-- A minimal entry of the queue, preferring the earliest among equals. -/
def minEntry : List (Est × State) → Option (Est × State)
  | [] => none
  | e :: rest =>
    match minEntry rest with
    | none => some e
    | some m => some (if entryLt m e then m else e)

/-- Remove the first occurrence of an entry from the queue. -/
def removeFirst : List (Est × State) → (Est × State) → List (Est × State)
  | [], _ => []
  | e :: rest, x => if e = x then rest else e :: removeFirst rest x

/-- The `heappop` call: return a minimal entry and the remaining queue,
or `none` on an empty queue, where Python raises `IndexError`. -/
def popMin (q : List (Est × State)) :
    Option ((Est × State) × List (Est × State)) :=
  match minEntry q with
  | none => none
  | some m => some (m, removeFirst q m)

/-- The backward walk of `create_path`.  The fuel bounds the number of
steps: a terminating walk visits pairwise distinct recorded states, so
`pred.length + 1` steps always suffice, and exhausting the fuel models
the infinite loop a cyclic predecessor chain would cause.  `none` also
models a `KeyError` on a state missing from the tables. -/
def create_path (pred : List (State × Option State))
    (pred_actions : List (State × Option String)) :
    Nat → State → Option (List (State × String))
  | 0, _ => none
  | fuel + 1, last =>
    match alookup pred_actions last with
    | none => none
    | some none => some []
    | some (some a) =>
      match alookup pred last with
      | none => none
      | some none => none
      | some (some ps) =>
        match create_path pred pred_actions fuel ps with
        | none => none
        | some p => some (p ++ [(last, a)])

/-- Possible outcomes of a `search` run: a found path, the `None`
returned when the time limit expires, the `IndexError` raised by
`heappop` on an empty queue, a `KeyError` escaping from the loop body,
or the hang of a cyclic predecessor walk. -/
inductive SearchResult : Type where
  | found : List (State × String) → SearchResult
  | noPlan : SearchResult
  | popEmptyErr : SearchResult
  | keyErr : SearchResult
  | hang : SearchResult
deriving DecidableEq

/-- The main loop of `search`; the fuel counts how many more iterations
the wall-clock deadline allows. -/
def searchLoop (goal : List (Item × Int)) (recipes : List Recipe) :
    Nat → Tables → SearchResult
  | 0, _ => .noPlan
  | fuel + 1, T =>
    match popMin T.queue with
    | none => .popEmptyErr
    | some ((curr_cost, curr_state), rest) =>
      if is_goal goal curr_state then
        match create_path T.pred T.pred_actions (T.pred.length + 1) curr_state with
        | none => .hang
        | some p => .found p
      else
        match graph recipes curr_state with
        | none => .keyErr
        | some tlist =>
          match processTrans curr_state curr_cost tlist { T with queue := rest } with
          | none => .keyErr
          | some T' => searchLoop goal recipes fuel T'

/-- The tables `search` seeds before its loop. -/
def initTables (st : State) : Tables :=
  ⟨[(.fin 0, st)], [(st, none)], [(st, none)], [(st, .fin 0)]⟩

/-- The whole `search` function. -/
def search (goal : List (Item × Int)) (recipes : List Recipe)
    (fuel : Nat) (st : State) : SearchResult :=
  searchLoop goal recipes fuel (initTables st)

/-- Two states denote the same mapping: every item name looks up to the
same quantity in both. -/
def mapEquiv (s t : State) : Prop :=
  ∀ x : Item, alookup s x = alookup t x

/-- The item catalog used by the concrete runs below: the eight tools and
two raw materials, every quantity zero, in a fixed insertion order. -/
def initState : State :=
  [("bench", 0), ("furnace", 0), ("iron_axe", 0), ("iron_pickaxe", 0),
   ("stone_axe", 0), ("stone_pickaxe", 0), ("wooden_axe", 0),
   ("wooden_pickaxe", 0), ("wood", 0), ("plank", 0)]

/-- A rule producing two benches at once, with no requirement. -/
def ruleTwoBench : Rule := ⟨none, none, [("bench", 2)]⟩

/-- The recipe wrapping `ruleTwoBench`. -/
def recTwoBench : Recipe := ⟨"make2bench", ruleTwoBench, 1⟩

/-- The state after applying `ruleTwoBench` to `initState`. -/
def stTwoBench : State :=
  [("bench", 2), ("furnace", 0), ("iron_axe", 0), ("iron_pickaxe", 0),
   ("stone_axe", 0), ("stone_pickaxe", 0), ("wooden_axe", 0),
   ("wooden_pickaxe", 0), ("wood", 0), ("plank", 0)]

/-- A rule producing one unit of wood from nothing. -/
def ruleWood : Rule := ⟨none, none, [("wood", 1)]⟩

/-- The recipe wrapping `ruleWood`. -/
def recWood : Recipe := ⟨"punch wood", ruleWood, 1⟩

/-- The state after applying `ruleWood` to `initState`. -/
def stWood1 : State :=
  [("bench", 0), ("furnace", 0), ("iron_axe", 0), ("iron_pickaxe", 0),
   ("stone_axe", 0), ("stone_pickaxe", 0), ("wooden_axe", 0),
   ("wooden_pickaxe", 0), ("wood", 1), ("plank", 0)]

/-- The spec scenario rule: consume one wood, produce four planks. -/
def rulePlank : Rule := ⟨none, some [("wood", 1)], [("plank", 4)]⟩

/-- A state holding one iron pickaxe and nothing else. -/
def stIronPick : State :=
  [("bench", 0), ("furnace", 0), ("iron_axe", 0), ("iron_pickaxe", 1),
   ("stone_axe", 0), ("stone_pickaxe", 0), ("wooden_axe", 0),
   ("wooden_pickaxe", 0), ("wood", 0), ("plank", 0)]

/-- A state holding two benches and nothing else. -/
def stBench2 : State := stTwoBench

/-- The tier-regression condition as the specification words it for claim
C4: a strictly higher tier of a tool class is held and the action
produces a strictly lower tier of the same class. -/
def specTierRegression (action : String) (s : State) : Bool :=
  (decide ((alookup s "iron_pickaxe").getD 0 > 0) &&
    (substr "stone_pickaxe" action || substr "wooden_pickaxe" action)) ||
  (decide ((alookup s "stone_pickaxe").getD 0 > 0) && substr "wooden_pickaxe" action) ||
  (decide ((alookup s "iron_axe").getD 0 > 0) &&
    (substr "stone_axe" action || substr "wooden_axe" action)) ||
  (decide ((alookup s "stone_axe").getD 0 > 0) && substr "wooden_axe" action)

/-- Reference definition following the wording of claim C4 and the
specification section 4.4: infinite when some tool is held in quantity
above one and the action is not the acquisition of that tool, zero when
it is, infinite on a tier regression, zero otherwise.  Written to be
compared against `heuristic`, which is translated from the source. -/
def heuristicSpecC4 (action : String) (s : State) : Est :=
  if tools.any (fun t => decide ((alookup s t).getD 0 > 1) && !substr t action) then .inf
  else if tools.any (fun t => decide ((alookup s t).getD 0 > 1) && substr t action) then .fin 0
  else if specTierRegression action s then .inf
  else .fin 0

/-- The `Consumes` amount a rule records for an item, if any. -/
def consLookup (r : Rule) (x : Item) : Option Int :=
  match r.consumes with
  | none => none
  | some cs => alookup cs x

/-- Invariant of the search tables: every recorded predecessor is a state
that failed the goal test, because predecessor links are only written
while expanding a popped state that was just checked against the goal. -/
def predInv (goal : List (Item × Int)) (T : Tables) : Prop :=
  ∀ s ps, alookup T.pred s = some (some ps) → is_goal goal ps = false

/-! ## Basic lemmas about association lists -/

theorem alookup_aset {κ α : Type} [DecidableEq κ]
    (l : List (κ × α)) (k : κ) (v : α) (x : κ) :
    alookup (aset l k v) x = if x = k then some v else alookup l x := by
  induction l with
  | nil => simp [aset, alookup]
  | cons p rest ih =>
    obtain ⟨k', v'⟩ := p
    rw [aset]
    by_cases hk : k = k'
    · subst hk
      by_cases hx : x = k <;> simp [alookup, hx]
    · rw [if_neg hk]
      by_cases hx : x = k'
      · subst hx
        have hxk : x ≠ k := fun h => hk h.symm
        simp [alookup, hxk]
      · simp [alookup, hx, ih]

theorem alookup_mem {κ α : Type} [DecidableEq κ] :
    ∀ (l : List (κ × α)) (x : κ) (v : α), alookup l x = some v → (x, v) ∈ l := by
  intro l
  induction l with
  | nil => intro x v h; cases h
  | cons p rest ih =>
    intro x v h
    obtain ⟨k', v'⟩ := p
    rw [alookup] at h
    by_cases hx : x = k'
    · rw [if_pos hx] at h
      cases h
      subst hx
      exact List.mem_cons_self _ _
    · rw [if_neg hx] at h
      exact List.mem_cons_of_mem _ (ih x v h)

theorem alookup_eq_none {κ α : Type} [DecidableEq κ] :
    ∀ (l : List (κ × α)) (x : κ), x ∉ l.map Prod.fst → alookup l x = none := by
  intro l
  induction l with
  | nil => intro x _; rfl
  | cons p rest ih =>
    intro x hx
    obtain ⟨k', v'⟩ := p
    simp only [List.map_cons, List.mem_cons, not_or] at hx
    rw [alookup, if_neg hx.1]
    exact ih x hx.2

/-! ## State equality, hashing and ordering (claim C5) -/

theorem stateEq_iff : ∀ s t : State, stateEq s t = true ↔ s = t
  | [], [] => by simp [stateEq]
  | [], _ :: _ => by simp [stateEq]
  | _ :: _, [] => by simp [stateEq]
  | (x, v) :: ps, (y, w) :: qs => by
    simp [stateEq, stateEq_iff ps qs, Prod.ext_iff, and_assoc]

theorem pairLtB_trichotomy (p q : Item × Int) (h : p ≠ q) :
    pairLtB p q = true ∨ pairLtB q p = true := by
  unfold pairLtB
  rcases eq_or_ne p.1 q.1 with h1 | h1
  · have h2 : p.2 ≠ q.2 := by
      intro hv
      exact h (Prod.ext h1 hv)
    rcases lt_or_gt_of_ne h2 with hlt | hgt
    · left; simp [h1, hlt]
    · right; simp [h1.symm, hgt]
  · rcases lt_or_gt_of_ne h1 with hlt | hgt
    · left; simp [h1, hlt]
    · right; simp [Ne.symm h1, hgt]

theorem keyLt_trichotomy : ∀ s t : State, keyLt s t = true ∨ s = t ∨ keyLt t s = true
  | [], [] => Or.inr (Or.inl rfl)
  | [], _ :: _ => Or.inl (by simp [keyLt])
  | _ :: _, [] => Or.inr (Or.inr (by simp [keyLt]))
  | p :: ps, q :: qs => by
    rcases eq_or_ne p q with hpq | hpq
    · subst hpq
      rcases keyLt_trichotomy ps qs with h | h | h
      · left; simp [keyLt, h]
      · right; left; rw [h]
      · right; right; simp [keyLt, h]
    · rcases pairLtB_trichotomy p q hpq with h | h
      · left; simp [keyLt, hpq, h]
      · right; right; simp [keyLt, Ne.symm hpq, h]

/-- Claim C5 as stated is false on the code: `State` equality is the
order-sensitive equality of `OrderedDict`, so two states carrying the
same item-to-quantity mapping but built in different insertion orders
compare unequal (and their hash keys differ). -/
theorem C5_counterexample :
    mapEquiv [("a", 1), ("b", 0)] [("b", 0), ("a", 1)] ∧
    stateEq [("a", 1), ("b", 0)] [("b", 0), ("a", 1)] = false := by
  constructor
  · intro x
    rcases eq_or_ne x "a" with h1 | h1
    · subst h1; decide
    · rcases eq_or_ne x "b" with h2 | h2
      · subst h2; decide
      · simp [alookup, h1, h2]
  · decide

/-- Claim C5, amended: two states are equal (and then their hash keys are
equal) exactly when their ordered sequences of item-quantity pairs are
equal — mapping equality alone does not suffice when the insertion
orders differ — and the comparison `keyLt` is total. -/
theorem C5_state_eq_hash_order :
    (∀ s t : State, stateEq s t = true ↔ s = t) ∧
    (∀ s t : State, stateEq s t = true → stateKey s = stateKey t) ∧
    (∀ s t : State, keyLt s t = true ∨ s = t ∨ keyLt t s = true) :=
  ⟨stateEq_iff,
   fun s t h => by rw [(stateEq_iff s t).mp h],
   keyLt_trichotomy⟩

/-- Witness for the amended claim C5 at a concrete pair of states. -/
theorem C5_state_eq_hash_order_witness :
    stateKey [("wood", 1)] = stateKey [("wood", 1)] :=
  C5_state_eq_hash_order.2.1 [("wood", 1)] [("wood", 1)] (by decide)

/-! ## The heuristic (claims C4 and C10) -/

theorem toolScan_fall_facts (action : String) (s : State) :
    ∀ ts : List Item, toolScan action s ts = .fall →
      ∀ t ∈ ts, ∃ v, alookup s t = some v ∧ v ≤ 1 ∧ substr t action = false := by
  intro ts
  induction ts with
  | nil => intro _ t ht; simp at ht
  | cons t' rest ih =>
    intro h t ht
    rw [toolScan] at h
    rcases hl : alookup s t' with _ | v <;> rw [hl] at h <;> dsimp only at h
    · cases h
    · by_cases h1 : v > 1
      · simp [h1] at h
      · rw [if_neg h1] at h
        by_cases h2 : substr t' action = true
        · simp [h2] at h
        · simp only [Bool.not_eq_true] at h2
          rw [h2] at h
          simp only [Bool.false_eq_true, if_false] at h
          rcases List.mem_cons.mp ht with hteq | htmem
          · subst hteq
            exact ⟨v, hl, by omega, h2⟩
          · exact ih h t htmem

theorem axeChecks_no_sub (action : String) (s : State) (va vs : Int)
    (hia : alookup s "iron_axe" = some va)
    (hsa : alookup s "stone_axe" = some vs)
    (h1 : substr "stone_axe" action = false)
    (h2 : substr "wooden_axe" action = false) :
    axeChecks action s = some (.fin 0) := by
  unfold axeChecks
  rw [hia]
  dsimp only
  by_cases h : va > 0
  · simp [h, h1, h2]
  · rw [if_neg h, hsa]
    dsimp only
    by_cases h' : vs > 0
    · simp [h', h2]
    · simp [h']

theorem tierChecks_no_sub (action : String) (s : State) (vip vsp va vs : Int)
    (hip : alookup s "iron_pickaxe" = some vip)
    (hsp : alookup s "stone_pickaxe" = some vsp)
    (hia : alookup s "iron_axe" = some va)
    (hsa : alookup s "stone_axe" = some vs)
    (h1 : substr "stone_pickaxe" action = false)
    (h2 : substr "wooden_pickaxe" action = false)
    (h3 : substr "stone_axe" action = false)
    (h4 : substr "wooden_axe" action = false) :
    tierChecks action s = some (.fin 0) := by
  have hax := axeChecks_no_sub action s va vs hia hsa h3 h4
  unfold tierChecks
  rw [hip]
  dsimp only
  by_cases h : vip > 0
  · simp [h, h1, h2, hax]
  · rw [if_neg h, hsp]
    dsimp only
    by_cases h' : vsp > 0
    · simp [h', h2, hax]
    · simp [h', hax]

/-- Claim C4, amended: the heuristic is completely determined by the tool
loop — the first tool held in quantity above one gives infinity, failing
that the first tool whose name occurs as a substring of the action name
gives zero, and when the loop falls through the result is zero, because
the tier-regression checks can then never fire (they test for tool names
inside the action name, which the fall-through has already excluded). -/
theorem C4_heuristic_eq_toolScan (action : String) (s : State) :
    heuristic action s =
      match toolScan action s tools with
      | .err => none
      | .ret e => some e
      | .fall => some (.fin 0) := by
  unfold heuristic
  rcases hscan : toolScan action s tools with _ | e | _
  · rfl
  · rfl
  · have hfacts := toolScan_fall_facts action s tools hscan
    obtain ⟨vip, hip, _, hsubip⟩ := hfacts "iron_pickaxe" (by simp [tools])
    obtain ⟨vsp, hsp, _, hsubsp⟩ := hfacts "stone_pickaxe" (by simp [tools])
    obtain ⟨vwp, hwp, _, hsubwp⟩ := hfacts "wooden_pickaxe" (by simp [tools])
    obtain ⟨va, hia, _, hsubia⟩ := hfacts "iron_axe" (by simp [tools])
    obtain ⟨vs, hsa, _, hsubsa⟩ := hfacts "stone_axe" (by simp [tools])
    obtain ⟨vw, hwa, _, hsubwa⟩ := hfacts "wooden_axe" (by simp [tools])
    exact tierChecks_no_sub action s vip vsp va vs hip hsp hia hsa
      hsubsp hsubwp hsubsa hsubwa

/-- Claim C4 as stated is false on the code: with one iron pickaxe in the
inventory, the action name `craft wooden_pickaxe at bench` produces a
strictly lower pickaxe tier, so the claim demands an infinite estimate,
but the tool loop returns 0 as soon as it sees the substring `bench`
inside the action name, before the tier checks can run. -/
theorem C4_counterexample :
    heuristicSpecC4 "craft wooden_pickaxe at bench" stIronPick = .inf ∧
    heuristic "craft wooden_pickaxe at bench" stIronPick = some (.fin 0) := by
  constructor <;> decide

theorem toolScan_append_ret0 (action : String) (s : State) (t : Item)
    (ts2 : List Item) (hsub : substr t action = true) :
    ∀ ts1 : List Item, (∀ t' ∈ ts1, ∃ v, alookup s t' = some v ∧ v ≤ 1) →
      (∃ v, alookup s t = some v ∧ v ≤ 1) →
      toolScan action s (ts1 ++ t :: ts2) = .ret (.fin 0) := by
  intro ts1
  induction ts1 with
  | nil =>
    intro _ hs
    obtain ⟨v, hv, hle⟩ := hs
    rw [List.nil_append, toolScan, hv]
    dsimp only
    rw [if_neg (by omega : ¬ v > 1)]
    simp [hsub]
  | cons t' rest ih =>
    intro hb hs
    obtain ⟨v', hv', hle'⟩ := hb t' (by simp)
    rw [List.cons_append, toolScan, hv']
    dsimp only
    rw [if_neg (by omega : ¬ v' > 1)]
    by_cases h2 : substr t' action = true
    · simp [h2]
    · simp only [Bool.not_eq_true] at h2
      rw [h2]
      simp only [Bool.false_eq_true, if_false]
      exact ih (fun x hx => hb x (List.mem_cons_of_mem _ hx)) hs

/-- Claim C10, amended: the acquisition test is substring containment of
the tool name in the action name scanned in the fixed list order, and the
heuristic returns 0 immediately — skipping the tier-regression checks —
when some tool name occurs in the action name and no tool at or before
that position (the matching tool itself included) is held in quantity
greater than one. -/
theorem C10_substring_scan (action : String) (s : State)
    (ts1 : List Item) (t : Item) (ts2 : List Item)
    (htools : tools = ts1 ++ t :: ts2)
    (hbefore : ∀ t' ∈ ts1, ∃ v, alookup s t' = some v ∧ v ≤ 1)
    (hself : ∃ v, alookup s t = some v ∧ v ≤ 1)
    (hsub : substr t action = true) :
    heuristic action s = some (.fin 0) := by
  unfold heuristic
  rw [htools, toolScan_append_ret0 action s t ts2 hsub ts1 hbefore hself]

/-- Witness for the amended claim C10: `bench` is the first listed tool,
its name occurs in `craft bench`, and it is held in quantity zero, so the
heuristic returns 0 at once. -/
theorem C10_substring_scan_witness :
    heuristic "craft bench" initState = some (.fin 0) :=
  C10_substring_scan "craft bench" initState [] "bench"
    ["furnace", "iron_axe", "iron_pickaxe", "stone_axe",
     "stone_pickaxe", "wooden_axe", "wooden_pickaxe"]
    (by decide) (by simp) ⟨0, by decide, by decide⟩ (by decide)

/-- Claim C10 as stated is false on the code: `bench` is the first listed
tool and no tool is listed earlier, its name occurs in the action name
`craft bench`, yet the heuristic returns infinity rather than 0 because
the bench quantity exceeds one — the quantity guard on the matching tool
itself is checked before the substring test. -/
theorem C10_counterexample :
    substr "bench" "craft bench" = true ∧
    heuristic "craft bench" stBench2 = some .inf := by
  constructor <;> decide

/-! ## The compiled effect and precondition (claims C6 and C7) -/

theorem applyProduces_spec (orig : State) :
    ∀ (ps : List (Item × Int)) (ns : State),
      (ps.map Prod.fst).Nodup →
      (∀ y, (alookup orig y).isSome → (alookup ns y).isSome) →
      ∃ ns', applyProduces orig ps ns = some ns' ∧
        ∀ x, alookup ns' x =
          match alookup ps x with
          | some p =>
            if (alookup orig x).isSome then some ((alookup ns x).getD 0 + p)
            else some p
          | none => alookup ns x := by
  intro ps
  induction ps with
  | nil =>
    intro ns _ _
    exact ⟨ns, rfl, fun x => rfl⟩
  | cons hd rest ih =>
    intro ns hnod hsub
    obtain ⟨k, a⟩ := hd
    simp only [List.map_cons, List.nodup_cons] at hnod
    obtain ⟨hknot, hnod'⟩ := hnod
    rw [applyProduces]
    by_cases horig : (alookup orig k).isSome = true
    · rw [if_pos horig]
      have hnsk : (alookup ns k).isSome := hsub k horig
      rcases hv : alookup ns k with _ | v
      · rw [hv] at hnsk; cases hnsk
      · dsimp only
        have hsub' : ∀ y, (alookup orig y).isSome →
            (alookup (aset ns k (v + a)) y).isSome := by
          intro y hy
          rw [alookup_aset]
          by_cases hyk : y = k
          · simp [hyk]
          · rw [if_neg hyk]; exact hsub y hy
        obtain ⟨ns', hns', hform⟩ := ih (aset ns k (v + a)) hnod' hsub'
        refine ⟨ns', hns', fun x => ?_⟩
        rw [hform x]
        by_cases hx : x = k
        · subst hx
          have h1 : alookup rest x = none := alookup_eq_none rest x hknot
          have h2 : alookup ((x, a) :: rest) x = some a := by
            rw [alookup, if_pos rfl]
          rw [h1, h2]
          dsimp only
          rw [alookup_aset, if_pos rfl, if_pos horig, hv]
          rfl
        · have h2 : alookup ((k, a) :: rest) x = alookup rest x := by
            rw [alookup, if_neg hx]
          rw [h2, alookup_aset, if_neg hx]
    · rw [if_neg horig]
      have hsub' : ∀ y, (alookup orig y).isSome →
          (alookup (aset ns k a) y).isSome := by
        intro y hy
        rw [alookup_aset]
        by_cases hyk : y = k
        · simp [hyk]
        · rw [if_neg hyk]; exact hsub y hy
      obtain ⟨ns', hns', hform⟩ := ih (aset ns k a) hnod' hsub'
      refine ⟨ns', hns', fun x => ?_⟩
      rw [hform x]
      by_cases hx : x = k
      · subst hx
        have h1 : alookup rest x = none := alookup_eq_none rest x hknot
        have h2 : alookup ((x, a) :: rest) x = some a := by
          rw [alookup, if_pos rfl]
        rw [h1, h2]
        dsimp only
        rw [alookup_aset, if_pos rfl, if_neg horig]
      · have h2 : alookup ((k, a) :: rest) x = alookup rest x := by
          rw [alookup, if_neg hx]
        rw [h2, alookup_aset, if_neg hx]

theorem applyConsumes_spec :
    ∀ (cs : List (Item × Int)) (ns : State),
      (cs.map Prod.fst).Nodup →
      (∀ p ∈ cs, (alookup ns p.1).isSome) →
      ∃ ns', applyConsumes cs ns = some ns' ∧
        ∀ x, alookup ns' x =
          match alookup cs x with
          | some c => (alookup ns x).map (fun v => v - c)
          | none => alookup ns x := by
  intro cs
  induction cs with
  | nil => intro ns _ _; exact ⟨ns, rfl, fun x => rfl⟩
  | cons hd rest ih =>
    intro ns hnod hpres
    obtain ⟨k, c⟩ := hd
    simp only [List.map_cons, List.nodup_cons] at hnod
    obtain ⟨hknot, hnod'⟩ := hnod
    have hk : (alookup ns k).isSome := hpres (k, c) (List.mem_cons_self _ _)
    rcases hv : alookup ns k with _ | v
    · rw [hv] at hk; cases hk
    · rw [applyConsumes, hv]
      dsimp only
      have hpres' : ∀ p ∈ rest, (alookup (aset ns k (v - c)) p.1).isSome := by
        intro p hp
        rw [alookup_aset]
        by_cases hpk : p.1 = k
        · simp [hpk]
        · rw [if_neg hpk]; exact hpres p (List.mem_cons_of_mem _ hp)
      obtain ⟨ns', hns', hform⟩ := ih (aset ns k (v - c)) hnod' hpres'
      refine ⟨ns', hns', fun x => ?_⟩
      rw [hform x]
      by_cases hx : x = k
      · subst hx
        have h1 : alookup rest x = none := alookup_eq_none rest x hknot
        have h2 : alookup ((x, c) :: rest) x = some c := by
          rw [alookup, if_pos rfl]
        rw [h1, h2]
        dsimp only
        rw [alookup_aset, if_pos rfl, hv]
        rfl
      · have h2 : alookup ((k, c) :: rest) x = alookup rest x := by
          rw [alookup, if_neg hx]
        rw [h2, alookup_aset, if_neg hx]

theorem effect_lookup_spec (r : Rule) (s : State)
    (hP : (r.produces.map Prod.fst).Nodup)
    (hC : ∀ cs, r.consumes = some cs → (cs.map Prod.fst).Nodup)
    (hpres : ∀ cs, r.consumes = some cs → ∀ p ∈ cs,
        (alookup s p.1).isSome ∨ (alookup r.produces p.1).isSome) :
    ∃ s', effect r s = some s' ∧
      ∀ x, alookup s' x =
        match alookup r.produces x, consLookup r x with
        | some p, some c => some ((alookup s x).getD 0 + p - c)
        | some p, none => some ((alookup s x).getD 0 + p)
        | none, some c => (alookup s x).map (fun v => v - c)
        | none, none => alookup s x := by
  obtain ⟨ns, hns, hformP⟩ :=
    applyProduces_spec s r.produces s hP (fun y hy => hy)
  have hformP' : ∀ x, alookup ns x =
      match alookup r.produces x with
      | some p => some ((alookup s x).getD 0 + p)
      | none => alookup s x := by
    intro x
    rw [hformP x]
    rcases hpx : alookup r.produces x with _ | p
    · rfl
    · dsimp only
      by_cases hox : (alookup s x).isSome = true
      · rw [if_pos hox]
      · rw [if_neg hox]
        rcases hsx : alookup s x with _ | w
        · simp
        · rw [hsx] at hox; simp at hox
  unfold effect
  rw [hns]
  rcases hc : r.consumes with _ | cs
  · refine ⟨ns, rfl, fun x => ?_⟩
    rw [hformP' x]
    unfold consLookup
    rw [hc]
    rcases hpx : alookup r.produces x with _ | p <;> rfl
  · have hpres' : ∀ p ∈ cs, (alookup ns p.1).isSome := by
      intro p hp
      rw [hformP' p.1]
      rcases hpx : alookup r.produces p.1 with _ | pp
      · dsimp only
        rcases hpres cs hc p hp with h | h
        · exact h
        · rw [hpx] at h; cases h
      · simp
    obtain ⟨s', hs', hformC⟩ := applyConsumes_spec cs ns (hC cs hc) hpres'
    refine ⟨s', hs', fun x => ?_⟩
    rw [hformC x, hformP' x]
    unfold consLookup
    rw [hc]
    dsimp only
    rcases hpx : alookup r.produces x with _ | p <;>
      rcases hcx : alookup cs x with _ | c <;> rfl

/-- Claim C6: for every rule and state (with dictionary-shaped rule maps
and every consumed item present or produced), the compiled effect
returns a new state whose quantities equal the input's except that every
produced item is increased by the produced amount (created with that
amount when previously absent) and every consumed item is decreased by
the consumed amount.  The embedding is purely functional, so the input
state is unchanged by construction, matching the no-mutation clause. -/
theorem C6_effect_new_state (r : Rule) (s : State)
    (hP : (r.produces.map Prod.fst).Nodup)
    (hC : ∀ cs, r.consumes = some cs → (cs.map Prod.fst).Nodup)
    (hpres : ∀ cs, r.consumes = some cs → ∀ p ∈ cs,
        (alookup s p.1).isSome ∨ (alookup r.produces p.1).isSome) :
    ∃ s', effect r s = some s' ∧
      ∀ x, alookup s' x =
        match alookup r.produces x, consLookup r x with
        | some p, some c => some ((alookup s x).getD 0 + p - c)
        | some p, none => some ((alookup s x).getD 0 + p)
        | none, some c => (alookup s x).map (fun v => v - c)
        | none, none => alookup s x :=
  effect_lookup_spec r s hP hC hpres

/-- Witness for claim C6 at the spec scenario rule (consume one wood,
produce four planks) applied to the inventory holding one wood. -/
theorem C6_effect_new_state_witness :
    ∃ s', effect rulePlank stWood1 = some s' ∧
      ∀ x, alookup s' x =
        match alookup rulePlank.produces x, consLookup rulePlank x with
        | some p, some c => some ((alookup stWood1 x).getD 0 + p - c)
        | some p, none => some ((alookup stWood1 x).getD 0 + p)
        | none, some c => (alookup stWood1 x).map (fun v => v - c)
        | none, none => alookup stWood1 x :=
  C6_effect_new_state rulePlank stWood1 (by decide)
    (fun cs hcs => by
      rw [show rulePlank.consumes = some [("wood", 1)] from rfl] at hcs
      cases hcs; decide)
    (fun cs hcs => by
      rw [show rulePlank.consumes = some [("wood", 1)] from rfl] at hcs
      cases hcs; decide)

theorem checkConsumes_facts (s : State) :
    ∀ cs : List (Item × Int), checkConsumes s cs = true →
      ∀ p ∈ cs, ∃ v, alookup s p.1 = some v ∧ p.2 ≤ v := by
  intro cs
  induction cs with
  | nil => intro _ p hp; simp at hp
  | cons hd rest ih =>
    intro h p hp
    obtain ⟨k, c⟩ := hd
    rw [checkConsumes] at h
    rcases hv : alookup s k with _ | v <;> rw [hv] at h <;> dsimp only at h
    · cases h
    · by_cases hlt : v < c
      · simp [hlt] at h
      · rw [if_neg hlt] at h
        rcases List.mem_cons.mp hp with hpe | hpm
        · subst hpe; exact ⟨v, hv, by omega⟩
        · exact ih h p hpm

theorem check_true_consumes (r : Rule) (s : State) (cs : List (Item × Int))
    (hchk : check r s = some true) (hc : r.consumes = some cs) :
    checkConsumes s cs = true := by
  unfold check at hchk
  rcases hr : r.requiresKeys with _ | reqs <;> rw [hr] at hchk <;>
    (try dsimp only at hchk)
  · rw [hc] at hchk
    dsimp only at hchk
    injection hchk
  · rcases hcr : checkRequires s reqs with _ | b <;> rw [hcr] at hchk <;>
      (try dsimp only at hchk)
    · cases hchk
    · rcases b with _ | _
      · simp at hchk
      · rw [hc] at hchk
        (try dsimp only at hchk)
        injection hchk

theorem consLookup_facts (r : Rule) (x : Item) (c : Int)
    (h : consLookup r x = some c) :
    ∃ cs, r.consumes = some cs ∧ (x, c) ∈ cs := by
  unfold consLookup at h
  rcases hr : r.consumes with _ | cs <;> rw [hr] at h <;> dsimp only at h
  · cases h
  · exact ⟨cs, rfl, alookup_mem cs x c h⟩

/-- Claim C7: for every rule with dictionary-shaped, non-negatively
producing maps and every non-negative state on which the compiled
precondition returns true, the compiled effect succeeds and the
resulting state holds no negative quantity. -/
theorem C7_no_negative (r : Rule) (s : State)
    (hP : (r.produces.map Prod.fst).Nodup)
    (hC : ∀ cs, r.consumes = some cs → (cs.map Prod.fst).Nodup)
    (hs : ∀ x v, alookup s x = some v → 0 ≤ v)
    (hprod : ∀ p ∈ r.produces, 0 ≤ p.2)
    (hchk : check r s = some true) :
    ∃ s', effect r s = some s' ∧ ∀ x v, alookup s' x = some v → 0 ≤ v := by
  have hcons : ∀ x c, consLookup r x = some c →
      ∃ v, alookup s x = some v ∧ c ≤ v := by
    intro x c hx
    obtain ⟨cs, hc, hmem⟩ := consLookup_facts r x c hx
    exact checkConsumes_facts s cs (check_true_consumes r s cs hchk hc) (x, c) hmem
  have hpres : ∀ cs, r.consumes = some cs → ∀ p ∈ cs,
      (alookup s p.1).isSome ∨ (alookup r.produces p.1).isSome := by
    intro cs hc p hp
    obtain ⟨v, hv, _⟩ :=
      checkConsumes_facts s cs (check_true_consumes r s cs hchk hc) p hp
    left; rw [hv]; rfl
  obtain ⟨s', hs', hform⟩ := effect_lookup_spec r s hP hC hpres
  refine ⟨s', hs', fun x v hxv => ?_⟩
  rw [hform x] at hxv
  rcases hpx : alookup r.produces x with _ | p <;> rw [hpx] at hxv <;>
    rcases hcx : consLookup r x with _ | c <;> rw [hcx] at hxv <;>
      (try dsimp only at hxv)
  · exact hs x v hxv
  · obtain ⟨w, hw, hcw⟩ := hcons x c hcx
    rw [hw] at hxv
    dsimp only [Option.map] at hxv
    injection hxv with hv
    omega
  · have hp0 : 0 ≤ p := hprod (x, p) (alookup_mem _ _ _ hpx)
    injection hxv with hv
    rcases hsx : alookup s x with _ | w <;> rw [hsx] at hv
    · dsimp only [Option.getD] at hv; omega
    · have hw0 : 0 ≤ w := hs x w hsx
      dsimp only [Option.getD] at hv; omega
  · have hp0 : 0 ≤ p := hprod (x, p) (alookup_mem _ _ _ hpx)
    obtain ⟨w, hw, hcw⟩ := hcons x c hcx
    injection hxv with hv
    rw [hw] at hv
    dsimp only [Option.getD] at hv
    omega

/-- Witness for claim C7 at the spec scenario rule applied to the
inventory holding one wood. -/
theorem C7_no_negative_witness :
    ∃ s', effect rulePlank stWood1 = some s' ∧
      ∀ x v, alookup s' x = some v → 0 ≤ v :=
  C7_no_negative rulePlank stWood1 (by decide)
    (fun cs hcs => by
      rw [show rulePlank.consumes = some [("wood", 1)] from rfl] at hcs
      cases hcs; decide)
    (fun x v hxv => by
      have hmem := alookup_mem stWood1 x v hxv
      have : ∀ p ∈ stWood1, 0 ≤ p.2 := by decide
      exact this (x, v) hmem)
    (by decide) (by decide)

/-! ## The search loop body (claims C1, C2, C3, C9) -/

/-- Claim C3: for every transition processed in a loop iteration, the
candidate cost is the popped entry's cost plus the transition cost, the
priority is the candidate cost plus the estimate, and the cost,
predecessor and action records are updated — and the state pushed —
exactly when the resulting state is unrecorded or the candidate cost is
strictly below its recorded best; otherwise the tables are untouched, so
a stale popped entry never overwrites a better record. -/
theorem C3_relax_update_iff (curr_state : State) (curr_cost : Est) (a : String)
    (ns : State) (nc : Int) (T : Tables) (est : Est)
    (hest : heuristic a ns = some est)
    (hkeys : (alookup T.pred ns).isSome ↔ (alookup T.path_cost ns).isSome) :
    (∀ old, alookup T.path_cost ns = some old →
        Est.lt (Est.add curr_cost (.fin nc)) old = false →
        relax curr_state curr_cost (a, ns, nc) T = some T) ∧
    ((alookup T.path_cost ns = none ∨
        ∃ old, alookup T.path_cost ns = some old ∧
          Est.lt (Est.add curr_cost (.fin nc)) old = true) →
      relax curr_state curr_cost (a, ns, nc) T = some
        ⟨(Est.add (Est.add curr_cost (.fin nc)) est, ns) :: T.queue,
         aset T.pred ns (some curr_state),
         aset T.pred_actions ns (some a),
         aset T.path_cost ns (Est.add curr_cost (.fin nc))⟩) := by
  constructor
  · intro old hold hlt
    have hpred : (alookup T.pred ns).isSome :=
      hkeys.mpr (by rw [hold]; rfl)
    unfold relax
    dsimp only
    rw [hest]
    dsimp only
    rcases hp : alookup T.pred ns with _ | p
    · rw [hp] at hpred; cases hpred
    · dsimp only
      rw [hold]
      dsimp only
      rw [hlt]
      rfl
  · intro hnew
    unfold relax
    dsimp only
    rw [hest]
    dsimp only
    rcases hnew with hnone | ⟨old, hold, hlt⟩
    · have hpred : alookup T.pred ns = none := by
        rcases hp : alookup T.pred ns with _ | p
        · rfl
        · have hh := hkeys.mp (by rw [hp]; rfl)
          rw [hnone] at hh; cases hh
      rw [hpred]
    · rcases hp : alookup T.pred ns with _ | p
      · rfl
      · dsimp only
        rw [hold]
        dsimp only
        rw [hlt]
        rfl

/-- Witness for claim C3: processing the `punch wood` transition from the
initial state updates all tables and pushes the new state. -/
theorem C3_relax_update_iff_witness :
    relax initState (.fin 0) ("punch wood", stWood1, 1) (initTables initState) =
      some ⟨(Est.add (Est.add (.fin 0) (.fin 1)) (.fin 0), stWood1) ::
              (initTables initState).queue,
            aset (initTables initState).pred stWood1 (some initState),
            aset (initTables initState).pred_actions stWood1 (some "punch wood"),
            aset (initTables initState).path_cost stWood1
              (Est.add (.fin 0) (.fin 1))⟩ :=
  (C3_relax_update_iff initState (.fin 0) "punch wood" stWood1 1
      (initTables initState) (.fin 0) (by decide) (by decide)).2
    (Or.inl (by decide))

/-- Claim C9: a transition whose heuristic estimate is infinite but whose
candidate path cost is finite still has the predecessor, action and cost
tables updated for its resulting state when that state is new or
improved, and an infinite-priority entry is pushed, so such pruned
transitions can become recorded predecessor links. -/
theorem C9_inf_estimate_still_recorded (curr_state : State) (curr_cost : Est)
    (a : String) (ns : State) (nc : Int) (T : Tables) (k : Int)
    (hest : heuristic a ns = some .inf)
    (hfin : Est.add curr_cost (.fin nc) = .fin k)
    (hnew : alookup T.pred ns = none ∨
      ∃ old, alookup T.path_cost ns = some old ∧ Est.lt (.fin k) old = true) :
    relax curr_state curr_cost (a, ns, nc) T = some
      ⟨(.inf, ns) :: T.queue,
       aset T.pred ns (some curr_state),
       aset T.pred_actions ns (some a),
       aset T.path_cost ns (.fin k)⟩ := by
  unfold relax
  dsimp only
  rw [hest]
  dsimp only
  rw [hfin]
  simp only [Est.add]
  rcases hnew with hnone | ⟨old, hold, hlt⟩
  · rw [hnone]
  · rcases hp : alookup T.pred ns with _ | p
    · rfl
    · dsimp only
      rw [hold]
      dsimp only
      rw [hlt]
      rfl

/-- Witness for claim C9: the transition producing two benches has an
infinite estimate and a finite candidate cost, and is recorded and
pushed at infinite priority from the initial tables. -/
theorem C9_inf_estimate_still_recorded_witness :
    relax initState (.fin 0) ("make2bench", stTwoBench, 1) (initTables initState) =
      some ⟨(.inf, stTwoBench) :: (initTables initState).queue,
            aset (initTables initState).pred stTwoBench (some initState),
            aset (initTables initState).pred_actions stTwoBench (some "make2bench"),
            aset (initTables initState).path_cost stTwoBench (.fin 1)⟩ :=
  C9_inf_estimate_still_recorded initState (.fin 0) "make2bench" stTwoBench 1
    (initTables initState) 1 (by decide) (by decide) (Or.inl (by decide))

/-- Claim C1 as stated is false on the code: in the concrete run below
the only transition has an infinite heuristic estimate, yet it is pushed
(at infinite priority) and the search returns a path whose single edge is
exactly that transition. -/
theorem C1_counterexample :
    heuristic "make2bench" stTwoBench = some .inf ∧
    search [("bench", 2)] [recTwoBench] 2 initState =
      .found [(stTwoBench, "make2bench")] := by
  constructor
  · decide
  · decide

/-- Claim C1, amended: a transition whose heuristic estimate is infinite
is still pushed onto the priority queue — at infinite priority — whenever
its resulting state is new (or strictly improved), and such transitions
can appear as edges of returned paths. -/
theorem C1_amended_inf_pushed (curr_state : State) (curr_cost : Est)
    (a : String) (ns : State) (nc : Int) (T : Tables)
    (hest : heuristic a ns = some .inf)
    (hnew : alookup T.pred ns = none ∨
      ∃ old, alookup T.path_cost ns = some old ∧
        Est.lt (Est.add curr_cost (.fin nc)) old = true) :
    ∃ T', relax curr_state curr_cost (a, ns, nc) T = some T' ∧
      (Est.inf, ns) ∈ T'.queue := by
  have hadd : Est.add (Est.add curr_cost (.fin nc)) .inf = .inf := by
    rcases Est.add curr_cost (.fin nc) with _ | _ <;> rfl
  refine ⟨⟨(Est.add (Est.add curr_cost (.fin nc)) .inf, ns) :: T.queue,
          aset T.pred ns (some curr_state),
          aset T.pred_actions ns (some a),
          aset T.path_cost ns (Est.add curr_cost (.fin nc))⟩, ?_, ?_⟩
  · unfold relax
    dsimp only
    rw [hest]
    dsimp only
    rcases hnew with hnone | ⟨old, hold, hlt⟩
    · rw [hnone]
    · rcases hp : alookup T.pred ns with _ | p
      · rfl
      · dsimp only
        rw [hold]
        dsimp only
        rw [hlt]
        rfl
  · rw [hadd]
    exact List.mem_cons_self _ _

/-- Witness for the amended claim C1 at the concrete two-bench
transition from the initial tables. -/
theorem C1_amended_inf_pushed_witness :
    ∃ T', relax initState (.fin 0) ("make2bench", stTwoBench, 1)
        (initTables initState) = some T' ∧ (Est.inf, stTwoBench) ∈ T'.queue :=
  C1_amended_inf_pushed initState (.fin 0) "make2bench" stTwoBench 1
    (initTables initState) (by decide) (Or.inl (by decide))

/-- Claim C2 is the intended behaviour but the code violates it: with no
recipes the queue is exhausted after the first pop, and the second
iteration calls `heappop` on an empty list, which raises `IndexError`
instead of returning the `None` sentinel. -/
theorem C2_queue_exhausted_raises :
    search [("wood", 1)] [] 2 initState = .popEmptyErr := by decide

/-! ## Goal satisfaction of returned paths (claim C8) -/

theorem relax_cases (cs : State) (c : Est) (t : String × State × Int)
    (T T' : Tables) (h : relax cs c t T = some T') :
    T' = T ∨ ∃ pc tot : Est,
      T' = ⟨(tot, t.2.1) :: T.queue, aset T.pred t.2.1 (some cs),
            aset T.pred_actions t.2.1 (some t.1),
            aset T.path_cost t.2.1 pc⟩ := by
  unfold relax at h
  rcases hh : heuristic t.1 t.2.1 with _ | e <;> rw [hh] at h <;> dsimp only at h
  · cases h
  · rcases hp : alookup T.pred t.2.1 with _ | p <;> rw [hp] at h <;> dsimp only at h
    · right
      exact ⟨_, _, (Option.some.inj h).symm⟩
    · rcases hpc : alookup T.path_cost t.2.1 with _ | old <;> rw [hpc] at h <;>
        dsimp only at h
      · cases h
      · by_cases hlt : Est.lt (Est.add c (.fin t.2.2)) old = true
        · rw [if_pos hlt] at h
          right
          exact ⟨_, _, (Option.some.inj h).symm⟩
        · rw [if_neg hlt] at h
          left
          exact (Option.some.inj h).symm

theorem relax_predInv (goal : List (Item × Int)) (cs : State) (c : Est)
    (t : String × State × Int) (T T' : Tables)
    (hrel : relax cs c t T = some T')
    (hgoal : is_goal goal cs = false)
    (hinv : predInv goal T) : predInv goal T' := by
  rcases relax_cases cs c t T T' hrel with h | ⟨pc, tot, h⟩
  · rw [h]; exact hinv
  · subst h
    intro s ps hl
    dsimp only at hl
    rw [alookup_aset] at hl
    by_cases hx : s = t.2.1
    · rw [if_pos hx] at hl
      injection hl with hl
      injection hl with hl
      rw [← hl]
      exact hgoal
    · rw [if_neg hx] at hl
      exact hinv s ps hl

theorem processTrans_predInv (goal : List (Item × Int)) (cs : State) (c : Est) :
    ∀ (ts : List (String × State × Int)) (T T' : Tables),
      processTrans cs c ts T = some T' →
      is_goal goal cs = false → predInv goal T → predInv goal T' := by
  intro ts
  induction ts with
  | nil =>
    intro T T' h hg hinv
    rw [processTrans] at h
    injection h with h
    rw [← h]; exact hinv
  | cons t rest ih =>
    intro T T' h hg hinv
    rw [processTrans] at h
    rcases hr : relax cs c t T with _ | T1 <;> rw [hr] at h <;> dsimp only at h
    · cases h
    · exact ih T1 T' h hg (relax_predInv goal cs c t T T1 hr hg hinv)

theorem create_path_getLast (pred : List (State × Option State))
    (pacts : List (State × Option String)) :
    ∀ (fuel : Nat) (s : State) (p : List (State × String)),
      create_path pred pacts fuel s = some p →
      p = [] ∨ ∃ a2, p.getLast? = some (s, a2) := by
  intro fuel
  induction fuel with
  | zero => intro s p h; cases h
  | succ n ih =>
    intro s p h
    rw [create_path] at h
    rcases ha : alookup pacts s with _ | oa <;> rw [ha] at h <;>
      (try dsimp only at h)
    · cases h
    · rcases oa with _ | a <;> (try dsimp only at h)
      · injection h with h
        left; exact h.symm
      · rcases hp : alookup pred s with _ | ops <;> rw [hp] at h <;>
          (try dsimp only at h)
        · cases h
        · rcases ops with _ | ps <;> (try dsimp only at h)
          · cases h
          · rcases hq : create_path pred pacts n ps with _ | q <;> rw [hq] at h <;>
              dsimp only at h
            · cases h
            · injection h with h
              right
              refine ⟨a, ?_⟩
              rw [← h]
              exact List.getLast?_concat _

theorem create_path_dropLast (goal : List (Item × Int))
    (pred : List (State × Option State))
    (pacts : List (State × Option String))
    (hinv : ∀ s ps, alookup pred s = some (some ps) → is_goal goal ps = false) :
    ∀ (fuel : Nat) (s : State) (p : List (State × String)),
      create_path pred pacts fuel s = some p →
      ∀ pr ∈ p.dropLast, is_goal goal pr.1 = false := by
  intro fuel
  induction fuel with
  | zero => intro s p h; cases h
  | succ n ih =>
    intro s p h pr hpr
    rw [create_path] at h
    rcases ha : alookup pacts s with _ | oa <;> rw [ha] at h <;>
      (try dsimp only at h)
    · cases h
    · rcases oa with _ | a <;> (try dsimp only at h)
      · injection h with h
        rw [← h] at hpr; simp at hpr
      · rcases hp : alookup pred s with _ | ops <;> rw [hp] at h <;>
          (try dsimp only at h)
        · cases h
        · rcases ops with _ | ps <;> (try dsimp only at h)
          · cases h
          · rcases hq : create_path pred pacts n ps with _ | q <;> rw [hq] at h <;>
              dsimp only at h
            · cases h
            · injection h with h
              rw [← h] at hpr
              rw [List.dropLast_concat] at hpr
              rcases List.eq_nil_or_concat q with hq0 | ⟨q', last, hq'⟩
              · rw [hq0] at hpr; simp at hpr
              · rw [List.concat_eq_append] at hq'
                subst hq'
                rcases List.mem_append.mp hpr with hmem | hmem
                · apply ih ps (q' ++ [last]) hq pr
                  rw [List.dropLast_concat]
                  exact hmem
                · rcases create_path_getLast pred pacts n ps (q' ++ [last]) hq with
                    h0 | ⟨a2, hl⟩
                  · simp at h0
                  · rw [List.getLast?_concat] at hl
                    injection hl with hl
                    have hpr' : pr = (ps, a2) := by
                      rw [List.mem_singleton.mp hmem, hl]
                    rw [hpr']
                    exact hinv s ps hp

theorem searchLoop_found_goal (goal : List (Item × Int)) (recipes : List Recipe) :
    ∀ (fuel : Nat) (T : Tables) (p : List (State × String)),
      predInv goal T →
      searchLoop goal recipes fuel T = .found p →
      (∀ pr ∈ p.dropLast, is_goal goal pr.1 = false) ∧
      (∀ pr, p.getLast? = some pr → is_goal goal pr.1 = true) := by
  intro fuel
  induction fuel with
  | zero =>
    intro T p _ h
    rw [searchLoop] at h
    cases h
  | succ n ih =>
    intro T p hinv h
    rw [searchLoop] at h
    rcases hpop : popMin T.queue with _ | me <;> rw [hpop] at h <;> dsimp only at h
    · cases h
    · obtain ⟨⟨c, s⟩, rest⟩ := me
      dsimp only at h
      by_cases hg : is_goal goal s = true
      · rw [if_pos hg] at h
        rcases hcp : create_path T.pred T.pred_actions (T.pred.length + 1) s
            with _ | q <;> rw [hcp] at h <;> dsimp only at h
        · cases h
        · injection h with h
          subst h
          constructor
          · exact fun pr hpr =>
              create_path_dropLast goal T.pred T.pred_actions hinv _ s _ hcp pr hpr
          · intro pr hlast
            rcases create_path_getLast T.pred T.pred_actions _ s _ hcp with
              h0 | ⟨a2, hl⟩
            · rw [h0] at hlast; cases hlast
            · rw [hl] at hlast
              injection hlast with hlast
              rw [← hlast]
              exact hg
      · rw [if_neg hg] at h
        rcases hgr : graph recipes s with _ | tl <;> rw [hgr] at h <;> dsimp only at h
        · cases h
        · rcases hpt : processTrans s c tl { T with queue := rest } with _ | T' <;>
            rw [hpt] at h <;> dsimp only at h
          · cases h
          · have hg' : is_goal goal s = false := by
              simp only [Bool.not_eq_true] at hg
              exact hg
            have hinv' : predInv goal { T with queue := rest } := hinv
            exact ih T' p (processTrans_predInv goal s c tl _ T' hpt hg' hinv') h

/-- Claim C8: the final state of any path returned by a successful search
satisfies the goal predicate, and no earlier state appearing in the
returned path satisfies it — every predecessor link was written while
expanding a state that had just failed the goal test. -/
theorem C8_goal_satisfaction (goal : List (Item × Int)) (recipes : List Recipe)
    (fuel : Nat) (st : State) (p : List (State × String))
    (h : search goal recipes fuel st = .found p) :
    (∀ pr ∈ p.dropLast, is_goal goal pr.1 = false) ∧
    (∀ pr, p.getLast? = some pr → is_goal goal pr.1 = true) :=
  searchLoop_found_goal goal recipes fuel (initTables st) p
    (by
      intro s ps hl
      dsimp only [initTables] at hl
      rw [alookup] at hl
      by_cases hx : s = st
      · rw [if_pos hx] at hl
        injection hl with hl
        cases hl
      · rw [if_neg hx] at hl
        rw [alookup] at hl
        cases hl) h

/-- Witness for claim C8 at the concrete one-step run collecting a wood:
its returned path ends in the goal state and has no earlier state. -/
theorem C8_goal_satisfaction_witness :
    (∀ pr ∈ ([(stWood1, "punch wood")] : List (State × String)).dropLast,
        is_goal [("wood", 1)] pr.1 = false) ∧
    (∀ pr, ([(stWood1, "punch wood")] : List (State × String)).getLast? = some pr →
        is_goal [("wood", 1)] pr.1 = true) :=
  C8_goal_satisfaction [("wood", 1)] [recWood] 2 initState
    [(stWood1, "punch wood")] (by decide)

end CraftPlanner
